import Mathlib

/-!
Verification of the `pql` in-memory evaluator (`pql.go`): a shallow embedding
of the `Eval` / `eval` / `evalExpr` functions and the data they operate on,
followed by theorems about the evaluator's behavior.

Go strings are modelled as Lean `String`; Go's `map[string]string` identifier
environment is modelled as `String → Option String` (absent key = `none`,
matching Go's two-value map lookup).  Go's heap of `*Table` pointers is
modelled as a `Store := List Table` with pointers as indices, so that the
evaluator's allocation behavior (and non-mutation of caller tables) is
explicit.
-/

namespace PQL

/-- Binary/unary operator tokens of the parser's AST (`parser.TokenX`).  The
evaluator handles only a few of them; the rest fall into its default error
branches. -/
inductive Token where
  | plus
  | minus
  | star
  | slash
  | percent
  | and
  | or
  | eq
  | ne
  | lt
  | le
  | gt
  | ge
  | tilde
  | notTilde
  | not
deriving DecidableEq, Repr

/-- One part of a `parser.QualifiedIdent`: a name plus its quoted flag.  The
evaluator reads only `Name`; the flag is carried to show quoting is ignored. -/
structure TokIdent where
  name : String
  quoted : Bool
deriving DecidableEq, Repr

mutual
/-- The expression AST consumed by `evalExpr` (`parser.Expr`).  `indexExpr`
stands for the expression forms the evaluator's `default:` branch rejects. -/
inductive Expr where
  | parenExpr (x : Expr)
  | basicLit (value : String)
  | qualifiedIdent (parts : List TokIdent)
  | unaryExpr (op : Token) (x : Expr)
  | binaryExpr (op : Token) (x : Expr) (y : Expr)
  | inExpr (x : Expr) (vals : ExprList)
  | callExpr (funcName : String) (args : ExprList)
  | indexExpr (x : Expr) (index : Expr)
deriving Repr

/-- A list of expressions (`[]parser.Expr`), as a mutual inductive so that
evaluation is structurally recursive. -/
inductive ExprList where
  | nil
  | cons (head : Expr) (tail : ExprList)
deriving Repr
end

/-- The identifier environment: Go's `map[string]string` passed to
`evalExpr`. -/
abbrev Idents := String → Option String

/-- Go's `nil` map: every lookup misses.  `eval` passes it for the `take`
row-count expression. -/
def emptyIdents : Idents := fun _ => none

/-- Go map assignment `m[k] = v`. -/
def identsInsert (m : Idents) (k v : String) : Idents :=
  fun k' => if k' = k then some v else m k'

/-- `stringToBool` from pql.go: `s != "" && s != "0"`. -/
def stringToBool (s : String) : Bool :=
  s != "" && s != "0"

/-- `boolToString` from pql.go. -/
def boolToString (b : Bool) : String :=
  if b then "1" else "0"

/-- Models `strings.CutPrefix(s, "-")`: `some` of the remainder when `s`
begins with `-`, `none` otherwise. -/
def cutPrefixDash (s : String) : Option String :=
  match s.data with
  | '-' :: rest => some (String.mk rest)
  | _ => none

/-- The `evalFuncs` map from pql.go: name lookup for the two provided
functions `not` and `strcat`. -/
def evalFuncs (name : String) : Option (List String → Except String String) :=
  if name = "not" then
    some (fun args =>
      match args with
      | [a] => .ok (boolToString (!stringToBool a))
      | _ => .error "not(x) takes exactly one argument")
  else if name = "strcat" then
    some (fun args =>
      match args with
      | [] => .error "strcat(x, ...) takes at least one argument"
      | _ => .ok (String.join args))
  else
    none

mutual
/-- `evalExpr` from pql.go.  Returns the evaluated string or the first
error, exactly mirroring the Go switch (including the `and`/`or`
short-circuit before the second operand is evaluated). -/
def evalExpr : Expr → Idents → Except String String
  | .parenExpr x, idents => evalExpr x idents
  | .basicLit v, _ => .ok v
  | .qualifiedIdent parts, idents =>
    match parts with
    | [p] =>
      match idents p.name with
      | some v => .ok v
      | none => .error ("unrecognized identifier " ++ p.name)
    | _ => .error "qualified identifiers not supported"
  | .unaryExpr op x, idents =>
    match evalExpr x idents with
    | .error e => .error e
    | .ok inner =>
      match op with
      | .plus => .ok inner
      | .minus =>
        match cutPrefixDash inner with
        | some pos => .ok pos
        | none => .ok ("-" ++ inner)
      | _ => .error "unhandled unary operator"
  | .binaryExpr op x y, idents =>
    match evalExpr x idents with
    | .error e => .error e
    | .ok a =>
      if (op = Token.and ∧ stringToBool a = false) ∨ (op = Token.or ∧ stringToBool a = true) then
        .ok a
      else
        match evalExpr y idents with
        | .error e => .error e
        | .ok b =>
          match op with
          | .eq => .ok (boolToString (a == b))
          | .ne => .ok (boolToString (a != b))
          | Token.and => .ok b
          | Token.or => .ok b
          | _ => .error "unhandled binary operator"
  | .inExpr x vals, idents =>
    match evalExpr x idents with
    | .error e => .error e
    | .ok a => evalInVals a vals idents
  | .callExpr fname args, idents =>
    match evalFuncs fname with
    | none => .error ("unknown function " ++ fname)
    | some f =>
      match evalArgs args idents with
      | .error e => .error e
      | .ok argVals => f argVals
  | .indexExpr _ _, _ => .error "unhandled expression"

/-- The `for _, y := range x.Vals` loop of the `InExpr` case: returns `"1"`
at the first value equal to `a`, `"0"` when the list is exhausted. -/
def evalInVals (a : String) : ExprList → Idents → Except String String
  | .nil, _ => .ok (boolToString false)
  | .cons y ys, idents =>
    match evalExpr y idents with
    | .error e => .error e
    | .ok b =>
      if a == b then .ok (boolToString true)
      else evalInVals a ys idents

/-- The argument-evaluation loop of the `CallExpr` case: evaluates all
arguments left to right, stopping at the first error. -/
def evalArgs : ExprList → Idents → Except String (List String)
  | .nil, _ => .ok []
  | .cons a rest, idents =>
    match evalExpr a idents with
    | .error e => .error e
    | .ok aa =>
      match evalArgs rest idents with
      | .error e => .error e
      | .ok tail => .ok (aa :: tail)
end

/-- `Table` from pql.go: an in-memory table. -/
structure Table where
  Name : String
  Columns : List String
  Data : List (List String)
deriving DecidableEq, Repr

/-- The identifier map seeded at the top of the `WhereOperator` case:
`{"null": "", "true": "1", "false": "0"}`. -/
def builtinIdents : Idents :=
  identsInsert (identsInsert (identsInsert emptyIdents "null" "") "true" "1") "false" "0"

/-- The `for i, val := range row { idents[curr.Columns[i]] = val }` loop.
Go indexes `curr.Columns[i]` and panics when `i ≥ len(Columns)`; the `getD`
default is only reached in that case, and the theorems below restrict to
rows no longer than the column list. -/
def fillRowIdents (cols : List String) : Nat → List String → Idents → Idents
  | _, [], idents => idents
  | i, v :: rest, idents =>
    fillRowIdents cols (i + 1) rest (identsInsert idents (cols.getD i "") v)

/-- The row loop of the `WhereOperator` case: for each row, fill the shared
identifier map with the row's column values, evaluate the predicate, and
append the row to the accumulator when the result is truthy. -/
def whereLoop (pred : Expr) (cols : List String) :
    List (List String) → Idents → List (List String) → Except String (List (List String))
  | [], _, acc => .ok acc
  | row :: rest, idents, acc =>
    let idents2 := fillRowIdents cols 0 row idents
    match evalExpr pred idents2 with
    | .error e => .error e
    | .ok result =>
      if stringToBool result then whereLoop pred cols rest idents2 (acc ++ [row])
      else whereLoop pred cols rest idents2 acc

/-- Accumulate the value of a decimal digit string (the digit loop inside
`strconv.ParseInt`); `none` at the first non-digit character. -/
def digitsVal : Nat → List Char → Option Nat
  | acc, [] => some acc
  | acc, c :: rest =>
    if c.isDigit then digitsVal (acc * 10 + (c.toNat - 48)) rest else none

/-- Largest Go `int` (64-bit platform). -/
def intMax : Int := 2 ^ 63 - 1

/-- Smallest Go `int` (64-bit platform). -/
def intMin : Int := -(2 ^ 63)

/-- The mathematical value of an optionally-signed decimal integer string
(no range restriction): `some` of the value of `[+-]?[0-9]+`, `none` for any
other string.  This is the syntax `strconv.Atoi` accepts, stated
independently of the machine integer width. -/
def decimalValue? (s : String) : Option Int :=
  match s.data with
  | [] => none
  | c :: rest =>
    let signDigits : Bool × List Char :=
      if c = '-' then (true, rest)
      else if c = '+' then (false, rest)
      else (false, c :: rest)
    match signDigits.2 with
    | [] => none
    | _ =>
      match digitsVal 0 signDigits.2 with
      | none => none
      | some v => some (if signDigits.1 then -(v : Int) else (v : Int))

/-- Models `strconv.Atoi` on a 64-bit platform: parse an optionally-signed
decimal integer and fail when the value is outside the `int` range.  The
`NumError` texts are abbreviated to their message parts; Go reports a range
error as soon as the accumulator overflows even if a later character is
malformed, a distinction between the two error *messages* that no caller in
pql.go observes. -/
def goAtoi (s : String) : Except String Int :=
  match decimalValue? s with
  | none => .error ("strconv.Atoi: parsing \"" ++ s ++ "\": invalid syntax")
  | some n =>
    if n < intMin ∨ intMax < n then
      .error ("strconv.Atoi: parsing \"" ++ s ++ "\": value out of range")
    else
      .ok n

/-- The tabular operators of the parser's AST.  The evaluator handles
`count`, `take`, and `where`; the remaining operator kinds (whose payloads
it never inspects, so they are omitted here) fall into its `default:`
branch. -/
inductive TabularOperator where
  | count
  | take (rowCount : Expr)
  | whereOp (predicate : Expr)
  | sort
  | top
  | project
  | extend
  | summarize
  | join
  | asOp
  | render
deriving Repr

/-- The data source of a `parser.TabularExpr`: a `TableRef`, or any other
source kind, which `eval`'s `default:` branch rejects. -/
inductive TabularDataSource where
  | tableRef (name : String)
  | unknownSource
deriving Repr

/-- `parser.TabularExpr`: one source and a pipeline of operators. -/
structure TabularExpr where
  source : TabularDataSource
  operators : List TabularOperator

/-- One iteration of the operator loop in `eval`: build the replacement
table for `curr` (each Go branch allocates a fresh `Table` whose `Name` is
the zero value `""`), or fail. -/
def applyOp (op : TabularOperator) (curr : Table) : Except String Table :=
  match op with
  | .count =>
    .ok { Name := "", Columns := ["count()"], Data := [[toString curr.Data.length]] }
  | .take rowCount =>
    match evalExpr rowCount emptyIdents with
    | .error e => .error e
    | .ok rc =>
      match goAtoi rc with
      | .error e => .error e
      | .ok n =>
        if n < 0 then .error "negative row count"
        else
          .ok { Name := "", Columns := curr.Columns,
                Data := curr.Data.take (min n.toNat curr.Data.length) }
  | .whereOp pred =>
    match whereLoop pred curr.Columns curr.Data builtinIdents [] with
    | .error e => .error e
    | .ok newData => .ok { Name := "", Columns := curr.Columns, Data := newData }
  | _ => .error "unhandled operator"

/-- The heap of allocated `Table`s; a `*Table` is an index into it. -/
abbrev Store := List Table

/-- The operator loop of `eval`, with the heap explicit: read the table
`curr` points to, apply the operator, allocate the resulting table, and
continue with a pointer to it.  The `none` branch of the pointer read is
unreachable for the non-nil pointers `eval` produces. -/
def evalOpsStore : List TabularOperator → Nat → Store → Except String Nat × Store
  | [], curr, store => (.ok curr, store)
  | op :: rest, curr, store =>
    match store[curr]? with
    | none => (.error "invalid table pointer", store)
    | some t =>
      match applyOp op t with
      | .error e => (.error e, store)
      | .ok t2 => evalOpsStore rest store.length (store ++ [t2])

/-- `eval` from pql.go: resolve the source table in the table map (a miss is
Go's `nil` pointer, reported as an unknown table), then run the operator
pipeline.  With no operators the input table's pointer itself is returned. -/
def evalTabular (x : TabularExpr) (tables : String → Option Nat) (store : Store) :
    Except String Nat × Store :=
  match x.source with
  | .tableRef name =>
    match tables name with
    | none => (.error ("unknown table \"" ++ name ++ "\""), store)
    | some p => evalOpsStore x.operators p store
  | .unknownSource => (.error "unhandled data source", store)

/-- The `tableMap` construction in `Eval`: later tables with the same name
overwrite earlier ones.  A dangling pointer is skipped (Go would panic
dereferencing a nil entry; no claim exercises that case). -/
def buildTableMap (store : Store) (tables : List Nat) : String → Option Nat :=
  tables.foldl
    (fun m p =>
      match store[p]? with
      | some t => fun k => if k = t.Name then some p else m k
      | none => m)
    (fun _ => none)

/-- `Eval` from pql.go, after parsing: `parser.Parse` is external to this
package and never sees the tables, so `Eval` is modelled from the parsed
AST on. -/
def EvalAst (x : TabularExpr) (tables : List Nat) (store : Store) :
    Except String Nat × Store :=
  evalTabular x (buildTableMap store tables) store

/-- The identifier environment the `where` operator evaluates a given row
under, when every row covers all columns: the builtins overwritten by the
row's column values. -/
def rowIdents (cols row : List String) : Idents :=
  fillRowIdents cols 0 row builtinIdents

/-- Whether the `where` operator keeps a row: its predicate evaluates
without error to a truthy string under the row's environment. -/
def whereKeeps (pred : Expr) (cols row : List String) : Bool :=
  match evalExpr pred (rowIdents cols row) with
  | .ok v => stringToBool v
  | .error _ => false

/-- The table `T(a,b) = [(1,2),(3,0),(5,4)]` of the spec's evaluator
scenario. -/
def tblT : Table :=
  { Name := "T", Columns := ["a", "b"],
    Data := [["1", "2"], ["3", "0"], ["5", "4"]] }

/-- The parsed form of the program `T | where b | take 5`. -/
def progC1 : TabularExpr :=
  { source := .tableRef "T",
    operators := [.whereOp (.qualifiedIdent [⟨"b", false⟩]), .take (.basicLit "5")] }

/-! ## Helper lemmas -/

theorem identsInsert_self (m : Idents) (k v : String) : identsInsert m k v k = some v := by
  simp [identsInsert]

theorem identsInsert_other (m : Idents) (k v k' : String) (h : k' ≠ k) :
    identsInsert m k v k' = m k' := by
  simp [identsInsert, h]

theorem fillRowIdents_miss (cols : List String) :
    ∀ (row : List String) (i : Nat) (m : Idents) (k : String),
      (∀ j, j < row.length → cols.getD (i + j) "" ≠ k) →
      fillRowIdents cols i row m k = m k := by
  intro row
  induction row with
  | nil => intro i m k _; rfl
  | cons v rest ih =>
    intro i m k h
    show fillRowIdents cols (i + 1) rest (identsInsert m (cols.getD i "") v) k = m k
    rw [ih (i + 1) _ k ?later]
    · refine identsInsert_other _ _ _ _ ?now
      case now =>
        intro hk
        exact h 0 (by simp) (by simpa using hk.symm)
    case later =>
      intro j hj hk
      refine h (j + 1) (by simpa using Nat.succ_lt_succ hj) ?_
      rwa [show i + (j + 1) = i + 1 + j by omega]

theorem fillRowIdents_congr (cols : List String) :
    ∀ (row : List String) (i : Nat) (m m' : Idents),
      (∀ k, (∀ j, j < row.length → cols.getD (i + j) "" ≠ k) → m k = m' k) →
      ∀ k, fillRowIdents cols i row m k = fillRowIdents cols i row m' k := by
  intro row
  induction row with
  | nil => intro i m m' h k; exact h k (by intro j hj; simp at hj)
  | cons v rest ih =>
    intro i m m' h k
    show fillRowIdents cols (i + 1) rest (identsInsert m (cols.getD i "") v) k =
      fillRowIdents cols (i + 1) rest (identsInsert m' (cols.getD i "") v) k
    refine ih (i + 1) _ _ ?_ k
    intro k' hk'
    by_cases hkey : k' = cols.getD i ""
    · subst hkey; rw [identsInsert_self, identsInsert_self]
    · rw [identsInsert_other _ _ _ _ hkey, identsInsert_other _ _ _ _ hkey]
      refine h k' ?_
      intro j hj
      match j with
      | 0 =>
        intro hk0
        rw [Nat.add_zero] at hk0
        exact hkey hk0.symm
      | j' + 1 =>
        have := hk' j' (by simpa using Nat.lt_of_succ_lt_succ hj)
        rwa [show i + (j' + 1) = i + 1 + j' by omega]

theorem fillRowIdents_hit (cols : List String) :
    ∀ (row : List String) (i0 i : Nat) (m : Idents) (k v : String),
      row.get? i = some v →
      cols.getD (i0 + i) "" = k →
      (∀ j, i < j → j < row.length → cols.getD (i0 + j) "" ≠ k) →
      fillRowIdents cols i0 row m k = some v := by
  intro row
  induction row with
  | nil => intro i0 i m k v hrow _ _; simp at hrow
  | cons w rest ih =>
    intro i0 i m k v hrow hcol hlast
    match i with
    | 0 =>
      have hv : w = v := by simpa using hrow
      subst hv
      have hkey : cols.getD i0 "" = k := by simpa using hcol
      show fillRowIdents cols (i0 + 1) rest (identsInsert m (cols.getD i0 "") w) k = some w
      rw [fillRowIdents_miss cols rest (i0 + 1) _ k ?rest]
      · rw [hkey]; exact identsInsert_self _ _ _
      case rest =>
        intro j hj
        have := hlast (j + 1) (by omega) (by simpa using Nat.succ_lt_succ hj)
        rwa [show i0 + (j + 1) = i0 + 1 + j by omega] at this
    | i' + 1 =>
      show fillRowIdents cols (i0 + 1) rest (identsInsert m (cols.getD i0 "") w) k = some v
      refine ih (i0 + 1) i' _ k v (by simpa using hrow) ?_ ?_
      · rwa [show i0 + 1 + i' = i0 + (i' + 1) by omega]
      · intro j hj1 hj2
        have := hlast (j + 1) (by omega) (by simpa using Nat.succ_lt_succ hj2)
        rwa [show i0 + (j + 1) = i0 + 1 + j by omega] at this

theorem fillRowIdents_not_mem (cols row : List String) (m : Idents) (k : String)
    (hk : k ∉ cols) (hlen : row.length ≤ cols.length) :
    fillRowIdents cols 0 row m k = m k := by
  refine fillRowIdents_miss cols row 0 m k ?_
  intro j hj hcol
  have hjc : j < cols.length := lt_of_lt_of_le hj hlen
  rw [show (0 : Nat) + j = j by omega, List.getD_eq_getElem cols "" hjc] at hcol
  exact hk (hcol ▸ List.getElem_mem hjc)

theorem whereLoop_filter (pred : Expr) (cols : List String) :
    ∀ (rows : List (List String)) (m : Idents) (acc : List (List String)),
      (∀ row ∈ rows, row.length = cols.length) →
      (∀ k, (∀ j, j < cols.length → cols.getD j "" ≠ k) → m k = builtinIdents k) →
      (∀ row ∈ rows, ∃ v, evalExpr pred (rowIdents cols row) = .ok v) →
      whereLoop pred cols rows m acc =
        .ok (acc ++ rows.filter (fun row => whereKeeps pred cols row)) := by
  intro rows
  induction rows with
  | nil => intro m acc _ _ _; simp [whereLoop]
  | cons row rest ih =>
    intro m acc hlen hm hev
    have hrowlen : row.length = cols.length := hlen row (by simp)
    have henv : fillRowIdents cols 0 row m = rowIdents cols row := by
      funext k
      refine fillRowIdents_congr cols row 0 m builtinIdents ?_ k
      intro k' hk'
      refine hm k' ?_
      intro j hj
      have := hk' j (by omega)
      rwa [Nat.zero_add] at this
    obtain ⟨v, hv⟩ := hev row (by simp)
    have hmrow : ∀ k, (∀ j, j < cols.length → cols.getD j "" ≠ k) →
        rowIdents cols row k = builtinIdents k := by
      intro k hk
      refine fillRowIdents_miss cols row 0 builtinIdents k ?_
      intro j hj
      rw [Nat.zero_add]
      exact hk j (by omega)
    have htail : ∀ acc', whereLoop pred cols rest (rowIdents cols row) acc' =
        .ok (acc' ++ rest.filter (fun r => whereKeeps pred cols r)) := by
      intro acc'
      exact ih (rowIdents cols row) acc' (fun r hr => hlen r (by simp [hr])) hmrow
        (fun r hr => hev r (by simp [hr]))
    have hkeep : whereKeeps pred cols row = stringToBool v := by
      simp [whereKeeps, hv]
    simp only [whereLoop, henv, hv]
    cases hb : stringToBool v with
    | true =>
      rw [if_pos rfl, htail (acc ++ [row])]
      simp [List.filter_cons, hkeep, hb]
    | false =>
      rw [if_neg (by simp), htail acc]
      simp [List.filter_cons, hkeep, hb]

theorem evalInVals_mem :
    ∀ (vals : ExprList) (env : Idents) (a : String) (bs : List String),
      evalArgs vals env = .ok bs →
      evalInVals a vals env = .ok (if a ∈ bs then "1" else "0")
  | ExprList.nil, env, a, bs, h => by
    have hbs : bs = [] := by simpa [evalArgs] using h.symm
    subst hbs
    simp [evalInVals, boolToString]
  | ExprList.cons y ys, env, a, bs, h => by
    rw [evalArgs] at h
    cases hy : evalExpr y env with
    | error e => rw [hy] at h; cases h
    | ok b =>
      rw [hy] at h
      dsimp only at h
      cases hys : evalArgs ys env with
      | error e => rw [hys] at h; cases h
      | ok tail =>
        rw [hys] at h
        have hbs : bs = b :: tail := by cases h; rfl
        subst hbs
        rw [evalInVals, hy]
        dsimp only
        by_cases hab : a = b
        · subst hab
          simp [boolToString]
        · rw [if_neg (by simpa using hab)]
          rw [evalInVals_mem ys env a tail hys]
          simp [List.mem_cons, hab]

theorem evalOpsStore_prefix :
    ∀ (ops : List TabularOperator) (curr : Nat) (store : Store),
      ((evalOpsStore ops curr store).2).take store.length = store := by
  intro ops
  induction ops with
  | nil => intro curr store; exact List.take_length store
  | cons op rest ih =>
    intro curr store
    rw [evalOpsStore]
    cases hcur : store[curr]? with
    | none => exact List.take_length store
    | some t =>
      dsimp only
      cases hap : applyOp op t with
      | error e => exact List.take_length store
      | ok t2 =>
        dsimp only
        have h := ih store.length (store ++ [t2])
        rw [show (store ++ [t2]).length = store.length + 1 by simp] at h
        have h2 : ((evalOpsStore rest store.length (store ++ [t2])).2).take store.length =
            (((evalOpsStore rest store.length (store ++ [t2])).2).take
              (store.length + 1)).take store.length := by
          rw [List.take_take]
          congr 1
          omega
        rw [h2, h]
        exact List.take_left store [t2]

theorem cutPrefixDash_dash (rest : List Char) :
    cutPrefixDash (String.mk ('-' :: rest)) = some (String.mk rest) := rfl

theorem cutPrefixDash_of_data (s : String) (r : List Char) (h : s.data = '-' :: r) :
    cutPrefixDash s = some (String.mk r) := by
  rw [show s = String.mk ('-' :: r) by rw [← h]]
  exact cutPrefixDash_dash r

theorem cutPrefixDash_none (s : String) (h : ∀ rest, s.data ≠ '-' :: rest) :
    cutPrefixDash s = none := by
  unfold cutPrefixDash
  split
  · next rest heq => exact absurd heq (h rest)
  · rfl

theorem no_dash_head (c : Char) (cs : List Char) (hc : c ≠ '-') :
    ∀ r, c :: cs ≠ '-' :: r := by
  intro r h
  injection h with h1 _
  exact hc h1

theorem evalExpr_minus_of (X : Expr) (env : Idents) (t : String)
    (h : evalExpr X env = .ok t) :
    evalExpr (.unaryExpr Token.minus X) env =
      (match cutPrefixDash t with
       | some pos => .ok pos
       | none => .ok ("-" ++ t)) := by
  simp [evalExpr, h]

/-! ## Claims -/

/-- C1: `where P` keeps the input's Columns and exactly the rows, in order,
whose predicate evaluates without error to a truthy string, truthy meaning
nonempty and not `"0"`; in particular `T | where b | take 5` on
`T(a,b) = [(1,2),(3,0),(5,4)]` yields columns `[a,b]` and rows
`[(1,2),(5,4)]`. -/
theorem claim_c1 :
    (∀ (P : Expr) (T : Table),
        (∀ row ∈ T.Data, row.length = T.Columns.length) →
        (∀ row ∈ T.Data, ∃ v, evalExpr P (rowIdents T.Columns row) = .ok v) →
        applyOp (.whereOp P) T =
          .ok { Name := "", Columns := T.Columns,
                Data := T.Data.filter (fun row => whereKeeps P T.Columns row) })
  ∧ (∀ s : String, stringToBool s = true ↔ s ≠ "" ∧ s ≠ "0")
  ∧ EvalAst progC1 [0] [tblT] =
      (.ok 2,
       [tblT,
        { Name := "", Columns := ["a", "b"], Data := [["1", "2"], ["5", "4"]] },
        { Name := "", Columns := ["a", "b"], Data := [["1", "2"], ["5", "4"]] }]) := by
  refine ⟨?_, ?_, rfl⟩
  · intro P T h1 h2
    simp only [applyOp]
    rw [whereLoop_filter P T.Columns T.Data builtinIdents [] h1 (fun k _ => rfl) h2]
    simp
  · intro s
    simp [stringToBool, Bool.and_eq_true, bne_iff_ne]

/-- Witness for C1 at the spec scenario's predicate and table. -/
theorem claim_c1_witness :
    applyOp (.whereOp (.qualifiedIdent [⟨"b", false⟩])) tblT =
      .ok { Name := "", Columns := ["a", "b"], Data := [["1", "2"], ["5", "4"]] } := by
  have h := claim_c1.1 (.qualifiedIdent [⟨"b", false⟩]) tblT
    (by intro row hr
        simp only [tblT, List.mem_cons, List.not_mem_nil, or_false] at hr
        rcases hr with rfl | rfl | rfl <;> rfl)
    (by intro row hr
        simp only [tblT, List.mem_cons, List.not_mem_nil, or_false] at hr
        rcases hr with rfl | rfl | rfl <;> exact ⟨_, rfl⟩)
  exact h.trans (by rfl)

/-- C2: `and`/`or` short-circuit: when the left operand is falsy, `X and Y`
is the left operand's value with `Y` never evaluated (so an error in `Y`
cannot surface), and otherwise it is exactly `Y`'s outcome; dually for
`or`; the result is one of the operand strings, not a normalized boolean. -/
theorem claim_c2 :
    ∀ (X Y : Expr) (env : Idents) (a : String),
      evalExpr X env = .ok a →
      ((stringToBool a = false →
          evalExpr (.binaryExpr Token.and X Y) env = .ok a)
     ∧ (stringToBool a = true →
          evalExpr (.binaryExpr Token.and X Y) env = evalExpr Y env)
     ∧ (stringToBool a = true →
          evalExpr (.binaryExpr Token.or X Y) env = .ok a)
     ∧ (stringToBool a = false →
          evalExpr (.binaryExpr Token.or X Y) env = evalExpr Y env)) := by
  intro X Y env a hX
  refine ⟨?_, ?_, ?_, ?_⟩
  · intro ha
    simp only [evalExpr, hX]
    rw [if_pos (Or.inl ⟨trivial, ha⟩)]
  · intro ha
    simp only [evalExpr, hX]
    rw [if_neg (by rintro (⟨_, h⟩ | ⟨h, _⟩) <;> simp_all)]
    cases hY : evalExpr Y env <;> simp
  · intro ha
    simp only [evalExpr, hX]
    rw [if_pos (Or.inr ⟨trivial, ha⟩)]
  · intro ha
    simp only [evalExpr, hX]
    rw [if_neg (by rintro (⟨h, _⟩ | ⟨_, h⟩) <;> simp_all)]
    cases hY : evalExpr Y env <;> simp

/-- Witness for C2: a falsy left operand short-circuits past a right
operand whose evaluation would fail. -/
theorem claim_c2_witness :
    evalExpr (.binaryExpr Token.and (.basicLit "0") (.callExpr "boom" ExprList.nil))
      emptyIdents = .ok "0" :=
  (claim_c2 (.basicLit "0") (.callExpr "boom" ExprList.nil) emptyIdents "0" rfl).1 rfl

/-- C5: `==` returns `"1"` exactly on byte-equal strings and `"0"`
otherwise, `!=` the opposite, and `in` returns `"1"` exactly when the left
value equals one of the evaluated list values. -/
theorem claim_c5 :
    ∀ (env : Idents),
      (∀ (X Y : Expr) (a b : String),
          evalExpr X env = .ok a → evalExpr Y env = .ok b →
          evalExpr (.binaryExpr Token.eq X Y) env = .ok (if a = b then "1" else "0")
        ∧ evalExpr (.binaryExpr Token.ne X Y) env = .ok (if a = b then "0" else "1"))
    ∧ (∀ (X : Expr) (vals : ExprList) (a : String) (bs : List String),
          evalExpr X env = .ok a → evalArgs vals env = .ok bs →
          evalExpr (.inExpr X vals) env = .ok (if a ∈ bs then "1" else "0")) := by
  intro env
  constructor
  · intro X Y a b hX hY
    constructor
    · simp only [evalExpr, hX]
      rw [if_neg (by rintro (⟨h, _⟩ | ⟨h, _⟩) <;> cases h)]
      rw [hY]
      by_cases hab : a = b
      · subst hab; simp [boolToString]
      · simp [boolToString, hab, beq_eq_false_iff_ne.mpr hab]
    · simp only [evalExpr, hX]
      rw [if_neg (by rintro (⟨h, _⟩ | ⟨h, _⟩) <;> cases h)]
      rw [hY]
      by_cases hab : a = b
      · subst hab; simp [boolToString, bne]
      · simp [boolToString, hab, bne, beq_eq_false_iff_ne.mpr hab]
  · intro X vals a bs hX hvals
    simp only [evalExpr, hX]
    exact evalInVals_mem vals env a bs hvals

/-- Witness for C5 on concrete operands. -/
theorem claim_c5_witness :
    evalExpr (.binaryExpr Token.eq (.basicLit "a") (.basicLit "b")) emptyIdents = .ok "0"
  ∧ evalExpr (.inExpr (.basicLit "x") (.cons (.basicLit "y") (.cons (.basicLit "x") .nil)))
      emptyIdents = .ok "1" :=
  ⟨(((claim_c5 emptyIdents).1 (.basicLit "a") (.basicLit "b") "a" "b" rfl rfl).1).trans
      (by rfl),
   ((claim_c5 emptyIdents).2 (.basicLit "x") (.cons (.basicLit "y") (.cons (.basicLit "x") .nil))
      "x" ["y", "x"] rfl rfl).trans (by rfl)⟩

/-- C3 counterexample: with a column literally named `true`, the identifier
`true` evaluates to the row's column value, not to `"1"` — the predicate
`true == "xyz"` keeps a row whose `true` column holds `"xyz"` — and in the
`take` row-count context the identifier `true` is an error rather than
`"1"`.  So the bindings do not always apply. -/
theorem claim_c3_counterexample :
    applyOp (.whereOp (.binaryExpr Token.eq (.qualifiedIdent [⟨"true", false⟩])
        (.basicLit "xyz")))
        { Name := "T2", Columns := ["true"], Data := [["xyz"]] } =
      .ok { Name := "", Columns := ["true"], Data := [["xyz"]] }
  ∧ applyOp (.take (.qualifiedIdent [⟨"true", false⟩])) tblT =
      .error "unrecognized identifier true" :=
  ⟨rfl, rfl⟩

/-- C3 (amended): in a `where` predicate the identifiers `true`, `false`,
and `null` evaluate to `"1"`, `"0"`, `""` regardless of quoting, provided
no column of the table shadows the name (column values overwrite the
seeded bindings); in `take`'s row-count context no identifiers are bound at
all, so any identifier is an error there. -/
theorem claim_c3_amended :
    ∀ (cols row : List String) (m : Idents) (q : Bool),
      row.length ≤ cols.length →
      (("true" ∉ cols → m "true" = some "1" →
          evalExpr (.qualifiedIdent [⟨"true", q⟩]) (fillRowIdents cols 0 row m) = .ok "1")
     ∧ ("false" ∉ cols → m "false" = some "0" →
          evalExpr (.qualifiedIdent [⟨"false", q⟩]) (fillRowIdents cols 0 row m) = .ok "0")
     ∧ ("null" ∉ cols → m "null" = some "" →
          evalExpr (.qualifiedIdent [⟨"null", q⟩]) (fillRowIdents cols 0 row m) = .ok "")
     ∧ (builtinIdents "true" = some "1" ∧ builtinIdents "false" = some "0" ∧
          builtinIdents "null" = some "")
     ∧ (∀ name : String,
          evalExpr (.qualifiedIdent [⟨name, q⟩]) emptyIdents =
            .error ("unrecognized identifier " ++ name))) := by
  intro cols row m q hlen
  refine ⟨?_, ?_, ?_, ⟨rfl, rfl, rfl⟩, ?_⟩
  · intro hc hm
    rw [show evalExpr (.qualifiedIdent [⟨"true", q⟩]) (fillRowIdents cols 0 row m) =
        (match fillRowIdents cols 0 row m "true" with
         | some v => .ok v
         | none => .error ("unrecognized identifier " ++ "true")) from rfl]
    rw [fillRowIdents_not_mem cols row m "true" hc hlen, hm]
  · intro hc hm
    rw [show evalExpr (.qualifiedIdent [⟨"false", q⟩]) (fillRowIdents cols 0 row m) =
        (match fillRowIdents cols 0 row m "false" with
         | some v => .ok v
         | none => .error ("unrecognized identifier " ++ "false")) from rfl]
    rw [fillRowIdents_not_mem cols row m "false" hc hlen, hm]
  · intro hc hm
    rw [show evalExpr (.qualifiedIdent [⟨"null", q⟩]) (fillRowIdents cols 0 row m) =
        (match fillRowIdents cols 0 row m "null" with
         | some v => .ok v
         | none => .error ("unrecognized identifier " ++ "null")) from rfl]
    rw [fillRowIdents_not_mem cols row m "null" hc hlen, hm]
  · intro name
    simp [evalExpr, emptyIdents]

/-- Witness for the amended C3: a quoted `true` still evaluates to `"1"`
in a row environment whose table has no shadowing column. -/
theorem claim_c3_witness :
    evalExpr (.qualifiedIdent [⟨"true", true⟩])
      (fillRowIdents ["a"] 0 ["5"] builtinIdents) = .ok "1" :=
  (claim_c3_amended ["a"] ["5"] builtinIdents true (by decide)).1 (by decide) rfl

/-- C6 counterexample: for a value with two leading dashes (built here with
`strcat`, which the parser can produce from string literals), each unary
minus strips one dash, so double negation is not the identity:
`--"--1"` evaluates to `"1"`, not back to `"--1"`. -/
theorem claim_c6_counterexample :
    evalExpr (.callExpr "strcat" (.cons (.basicLit "-") (.cons (.basicLit "-1") .nil)))
      emptyIdents = .ok "--1"
  ∧ evalExpr (.unaryExpr Token.minus (.unaryExpr Token.minus
        (.callExpr "strcat" (.cons (.basicLit "-") (.cons (.basicLit "-1") .nil)))))
      emptyIdents = .ok "1"
  ∧ ("1" : String) ≠ "--1" :=
  ⟨rfl, rfl, by decide⟩

/-- C6 (amended): unary minus removes a leading `-` when present and
prepends one otherwise; double negation restores the original value for
every value that does not begin with two `-` characters (for one that
does, each minus strips one leading `-`). -/
theorem claim_c6_amended :
    ∀ (X : Expr) (env : Idents) (s : String),
      evalExpr X env = .ok s →
      ((∀ rest : List Char, s.data = '-' :: rest →
          evalExpr (.unaryExpr Token.minus X) env = .ok (String.mk rest))
     ∧ ((∀ rest : List Char, s.data ≠ '-' :: rest) →
          evalExpr (.unaryExpr Token.minus X) env = .ok ("-" ++ s))
     ∧ ((∀ rest : List Char, s.data ≠ '-' :: '-' :: rest) →
          evalExpr (.unaryExpr Token.minus (.unaryExpr Token.minus X)) env = .ok s)) := by
  intro X env s hX
  have hsub1 : ∀ rest : List Char, s.data = '-' :: rest →
      evalExpr (.unaryExpr Token.minus X) env = .ok (String.mk rest) := by
    intro rest hd
    rw [evalExpr_minus_of X env s hX, cutPrefixDash_of_data s rest hd]
  have hsub2 : (∀ rest : List Char, s.data ≠ '-' :: rest) →
      evalExpr (.unaryExpr Token.minus X) env = .ok ("-" ++ s) := by
    intro hne
    rw [evalExpr_minus_of X env s hX, cutPrefixDash_none s hne]
  refine ⟨hsub1, hsub2, ?_⟩
  intro hnd
  by_cases hstart : ∃ r, s.data = '-' :: r
  · obtain ⟨r, hr⟩ := hstart
    have h1 := hsub1 r hr
    have hnone : ∀ r', (String.mk r).data ≠ '-' :: r' := by
      intro r' h'
      exact hnd r' (by rw [hr]; rw [show (String.mk r).data = r from rfl] at h'; rw [h'])
    rw [evalExpr_minus_of _ env (String.mk r) h1, cutPrefixDash_none _ hnone]
    rw [show "-" ++ String.mk r = String.mk ('-' :: r) from rfl]
    rw [show s = String.mk s.data from rfl, hr]
  · have hne : ∀ r, s.data ≠ '-' :: r := fun r h => hstart ⟨r, h⟩
    have h1 := hsub2 hne
    have hcut : cutPrefixDash ("-" ++ s) = some (String.mk s.data) :=
      cutPrefixDash_of_data _ s.data (by rw [show ("-" ++ s).data = '-' :: s.data from rfl])
    rw [evalExpr_minus_of _ env ("-" ++ s) h1, hcut]

/-- Witness for the amended C6 on the value `"ab"`: one minus prepends a
dash, a second minus restores the value. -/
theorem claim_c6_witness :
    evalExpr (.unaryExpr Token.minus (.basicLit "ab")) emptyIdents = .ok "-ab"
  ∧ evalExpr (.unaryExpr Token.minus (.unaryExpr Token.minus (.basicLit "ab")))
      emptyIdents = .ok "ab" :=
  ⟨(claim_c6_amended (.basicLit "ab") emptyIdents "ab" rfl).2.1
      (no_dash_head 'a' ['b'] (by decide)),
   (claim_c6_amended (.basicLit "ab") emptyIdents "ab" rfl).2.2
      (fun r h => no_dash_head 'a' ['b'] (by decide) ('-' :: r) h)⟩

/-- C4 counterexample: `"9223372036854775808"` is the decimal
representation of the nonnegative integer `2^63`, so the claim requires
`take` to succeed, but `strconv.Atoi` overflows Go's 64-bit `int` and the
evaluator returns its error. -/
theorem claim_c4_counterexample :
    decimalValue? "9223372036854775808" = some (2 ^ 63)
  ∧ (0 : Int) ≤ 2 ^ 63
  ∧ applyOp (.take (.basicLit "9223372036854775808")) tblT =
      .error "strconv.Atoi: parsing \"9223372036854775808\": value out of range" :=
  ⟨rfl, by decide, rfl⟩

/-- C4 (amended): with the row count evaluating to the string `s`, `take`
errors exactly when `s` is not an optionally-signed decimal integer, when
its value is negative, or when its value exceeds the 64-bit `int` maximum;
otherwise it succeeds with the input's Columns and the first
`min(N, len(Data))` rows. -/
theorem claim_c4_amended :
    ∀ (T : Table) (rc : Expr) (s : String),
      evalExpr rc emptyIdents = .ok s →
      ((decimalValue? s = none → ∃ e, applyOp (.take rc) T = .error e)
     ∧ (∀ v : Int, decimalValue? s = some v → v < 0 →
          ∃ e, applyOp (.take rc) T = .error e)
     ∧ (∀ v : Int, decimalValue? s = some v → intMax < v →
          ∃ e, applyOp (.take rc) T = .error e)
     ∧ (∀ v : Int, decimalValue? s = some v → 0 ≤ v → v ≤ intMax →
          applyOp (.take rc) T =
            .ok { Name := "", Columns := T.Columns,
                  Data := T.Data.take (min v.toNat T.Data.length) })) := by
  intro T rc s hs
  refine ⟨?_, ?_, ?_, ?_⟩
  · intro hd
    refine ⟨"strconv.Atoi: parsing \"" ++ s ++ "\": invalid syntax", ?_⟩
    simp [applyOp, hs, goAtoi, hd]
  · intro v hd hv
    by_cases hrange : v < intMin ∨ intMax < v
    · refine ⟨"strconv.Atoi: parsing \"" ++ s ++ "\": value out of range", ?_⟩
      simp [applyOp, hs, goAtoi, hd, if_pos hrange]
    · refine ⟨"negative row count", ?_⟩
      simp [applyOp, hs, goAtoi, hd, if_neg hrange, if_pos hv]
  · intro v hd hv
    refine ⟨"strconv.Atoi: parsing \"" ++ s ++ "\": value out of range", ?_⟩
    simp [applyOp, hs, goAtoi, hd, if_pos (Or.inr hv)]
  · intro v hd h0 hmax
    have hrange : ¬(v < intMin ∨ intMax < v) := by
      rintro (h | h)
      · have : intMin ≤ 0 := by norm_num [intMin]
        omega
      · omega
    simp [applyOp, hs, goAtoi, hd, if_neg hrange, if_neg (by omega : ¬v < 0)]

/-- Witness for the amended C4: `take 1` keeps the first row of the
three-row table. -/
theorem claim_c4_witness :
    applyOp (.take (.basicLit "1")) tblT =
      .ok { Name := "", Columns := ["a", "b"], Data := [["1", "2"]] } :=
  ((claim_c4_amended tblT (.basicLit "1") "1" rfl).2.2.2 1 rfl (by decide)
    (by norm_num [intMax])).trans (by rfl)

/-- C7: evaluation never mutates the caller's tables: whatever `Eval`
returns, the portion of the store that existed before the call — every
input table's Name, Columns, and Data — is unchanged (new tables are only
appended). -/
theorem claim_c7 :
    ∀ (x : TabularExpr) (tables : List Nat) (store : Store),
      ((EvalAst x tables store).2).take store.length = store := by
  intro x tables store
  obtain ⟨src, ops⟩ := x
  cases src with
  | tableRef name =>
    simp only [EvalAst, evalTabular]
    cases h : buildTableMap store tables name with
    | none => exact List.take_length store
    | some p => exact evalOpsStore_prefix ops p store
  | unknownSource => exact List.take_length store

/-- C8: the evaluator supports exactly the functions `not` and `strcat`,
the binary operators `==`, `!=`, `and`, `or`, the unary operators `+`,
`-`, and the pipeline operators `count`, `take`, `where`; anything else is
an error, and an operator error aborts the pipeline, returning the error
with no result table. -/
theorem claim_c8 :
    (∀ (name : String) (args : ExprList) (env : Idents),
        name ≠ "not" → name ≠ "strcat" →
        evalExpr (.callExpr name args) env = .error ("unknown function " ++ name))
  ∧ (∀ (op : Token) (X Y : Expr) (env : Idents) (a b : String),
        evalExpr X env = .ok a → evalExpr Y env = .ok b →
        op ≠ Token.eq → op ≠ Token.ne → op ≠ Token.and → op ≠ Token.or →
        evalExpr (.binaryExpr op X Y) env = .error "unhandled binary operator")
  ∧ (∀ (op : Token) (X : Expr) (env : Idents) (a : String),
        evalExpr X env = .ok a → op ≠ Token.plus → op ≠ Token.minus →
        evalExpr (.unaryExpr op X) env = .error "unhandled unary operator")
  ∧ (∀ (op : TabularOperator) (t : Table),
        op ≠ .count → (∀ e, op ≠ .take e) → (∀ e, op ≠ .whereOp e) →
        applyOp op t = .error "unhandled operator")
  ∧ (∀ (op : TabularOperator) (rest : List TabularOperator) (curr : Nat)
        (store : Store) (t : Table) (e : String),
        store[curr]? = some t → applyOp op t = .error e →
        evalOpsStore (op :: rest) curr store = (.error e, store)) := by
  refine ⟨?_, ?_, ?_, ?_, ?_⟩
  · intro name args env h1 h2
    simp [evalExpr, evalFuncs, h1, h2]
  · intro op X Y env a b hX hY h1 h2 h3 h4
    cases op <;>
      first
        | exact absurd rfl h1
        | exact absurd rfl h2
        | exact absurd rfl h3
        | exact absurd rfl h4
        | simp [evalExpr, hX, hY]
  · intro op X env a hX h1 h2
    cases op <;>
      first
        | exact absurd rfl h1
        | exact absurd rfl h2
        | simp [evalExpr, hX]
  · intro op t h1 h2 h3
    cases op with
    | count => exact absurd rfl h1
    | take e => exact absurd rfl (h2 e)
    | whereOp e => exact absurd rfl (h3 e)
    | _ => rfl
  · intro op rest curr store t e h1 h2
    rw [evalOpsStore, h1]
    dsimp only
    rw [h2]

/-- Witness for C8: an unknown function name errors. -/
theorem claim_c8_witness :
    evalExpr (.callExpr "boom" ExprList.nil) emptyIdents =
      .error "unknown function boom" :=
  claim_c8.1 "boom" ExprList.nil emptyIdents (by decide) (by decide)

/-- C9: a column whose name collides with a built-in (`true`, `false`,
`null` — or any name) shadows it: after the row fill, the identifier
evaluates to the current row's value for the (last such) column, whatever
the map previously held; concretely, `where true` over a table with a
column named `true` drops a row holding `"0"`, which the builtin `"1"`
would have kept. -/
theorem claim_c9 :
    (∀ (cols row : List String) (m : Idents) (i : Nat) (k v : String) (q : Bool),
        cols.get? i = some k →
        row.get? i = some v →
        (∀ j, i < j → j < row.length → cols.getD j "" ≠ k) →
        evalExpr (.qualifiedIdent [⟨k, q⟩]) (fillRowIdents cols 0 row m) = .ok v)
  ∧ applyOp (.whereOp (.qualifiedIdent [⟨"true", false⟩]))
      { Name := "T2", Columns := ["true"], Data := [["0"]] } =
      .ok { Name := "", Columns := ["true"], Data := [] } := by
  constructor
  · intro cols row m i k v q hcol hrow hlast
    have hk : fillRowIdents cols 0 row m k = some v := by
      refine fillRowIdents_hit cols row 0 i m k v hrow ?_ ?_
      · rw [Nat.zero_add]
        simp [List.getD_eq_getElem?_getD, ← List.get?_eq_getElem?, hcol]
      · intro j hj1 hj2
        rw [Nat.zero_add]
        exact hlast j hj1 hj2
    rw [show evalExpr (.qualifiedIdent [⟨k, q⟩]) (fillRowIdents cols 0 row m) =
        (match fillRowIdents cols 0 row m k with
         | some v => .ok v
         | none => .error ("unrecognized identifier " ++ k)) from rfl]
    rw [hk]
  · rfl

/-- Witness for C9 at a one-column table whose column is named `true`. -/
theorem claim_c9_witness :
    evalExpr (.qualifiedIdent [⟨"true", false⟩])
      (fillRowIdents ["true"] 0 ["0"] builtinIdents) = .ok "0" :=
  claim_c9.1 ["true"] ["0"] builtinIdents 0 "true" "0" false rfl rfl
    (by intro j h1 h2; simp at h2; omega)

/-- C10 counterexample: the row count `0 and true` contains the identifier
`true`, yet `take (0 and true)` succeeds (short-circuiting skips the
identifier), so it is not the case that every identifier occurring in the
row count causes an error. -/
theorem claim_c10_counterexample :
    applyOp (.take (.binaryExpr Token.and (.basicLit "0")
        (.qualifiedIdent [⟨"true", false⟩]))) tblT =
      .ok { Name := "", Columns := ["a", "b"], Data := [] } :=
  rfl

/-- C10 (amended): `take`'s row count is evaluated with the `nil`
identifier map, so every identifier its evaluation reaches — including
`true`, `false`, and `null` — yields an unrecognized-identifier error; in
particular a bare identifier of any name as the row count always aborts
`take`. -/
theorem claim_c10_amended :
    (∀ (name : String) (q : Bool),
        evalExpr (.qualifiedIdent [⟨name, q⟩]) emptyIdents =
          .error ("unrecognized identifier " ++ name))
  ∧ (∀ (name : String) (q : Bool) (T : Table),
        applyOp (.take (.qualifiedIdent [⟨name, q⟩])) T =
          .error ("unrecognized identifier " ++ name)) := by
  constructor
  · intro name q
    simp [evalExpr, emptyIdents]
  · intro name q T
    simp [applyOp, evalExpr, emptyIdents]

end PQL
